import Mathlib

/-
  Verification development for the trading-data validation and
  fallback-substitution subsystem of the tradingapp repository
  (python/processors/data_processor.py).

  Shallow embedding conventions:
  * Python float values are modelled exactly as decimal fixed-point numbers
    `Dec10` (an integer mantissa over a power-of-ten denominator); every
    numeric literal this pipeline manipulates is decimal, and float
    equality/order in the source is modelled by the value-level `deq` /
    `dle` / `dlt`, which compare the represented rationals.
  * A "null" numeric (Python None / pandas NaN) is `Option.none`; numeric
    columns are modelled as nullable values, matching pandas numeric columns
    holding NaN for nulls.
  * Python dict rows are modelled by the `Row` structure; an absent optional
    field is `Option.none`, which the source treats like a NaN cell.
  * `utc_now_iso()` is nondeterministic in the source; it is threaded through
    as an explicit `now : String` parameter.
  * `pd.to_datetime` is an external library call: a timestamp input is
    modelled by `TsIn`, which is either `good iso` (a value pandas parses,
    carrying its normalized ISO-8601 rendering, for which
    `pd.to_datetime(x).isoformat()` is the identity) or `bad s` (a value for
    which `pd.to_datetime` raises).
  * Exceptions escaping a function are modelled with `Except Unit`.
  * Python's builtin `float(...)` string parser is modelled by `pyFloat` for
    finite decimal/exponent literals (the only forms this pipeline feeds it;
    "inf"/"nan" literals and underscore grouping are outside the model).
  * Python sets are modelled as duplicate-free lists; only membership and
    emptiness are meaningful (Python set iteration order is unspecified, the
    embedding fixes first-occurrence order).
  * pandas `sort_values` is modelled by a stable insertion sort; the source
    uses quicksort, but no property below depends on the order of rows whose
    sort keys tie.
-/

set_option maxRecDepth 10000

namespace DataProcessor

/-- An exact decimal number `m / 10 ^ e`, the model of a Python float in this
pipeline (all values fed through it are decimal literals). -/
structure Dec10 where
  m : ℤ
  e : ℕ
deriving DecidableEq

/-- Value equality of two decimals (Python float equality). -/
def deq (a b : Dec10) : Bool :=
  decide (a.m * (10 : ℤ) ^ b.e = b.m * (10 : ℤ) ^ a.e)

/-- Value order of two decimals (Python float `<=`). -/
def dle (a b : Dec10) : Bool :=
  decide (a.m * (10 : ℤ) ^ b.e ≤ b.m * (10 : ℤ) ^ a.e)

/-- Value order of two decimals (Python float `<`). -/
def dlt (a b : Dec10) : Bool :=
  decide (a.m * (10 : ℤ) ^ b.e < b.m * (10 : ℤ) ^ a.e)

/-- Multiplication of decimals. -/
def dmul (a b : Dec10) : Dec10 := ⟨a.m * b.m, a.e + b.e⟩

/-- Scaling a decimal by `10 ^ z` for an integer `z` (used for exponent
parts of float literals). -/
def dshift (a : Dec10) (z : ℤ) : Dec10 :=
  match z with
  | .ofNat n => ⟨a.m * (10 : ℤ) ^ n, a.e⟩
  | .negSucc n => ⟨a.m, a.e + (n + 1)⟩

/-- The represented rational value of a decimal (specification-level view). -/
def dval (a : Dec10) : ℚ := (a.m : ℚ) / (10 : ℚ) ^ a.e

/-- A raw Python value as it can appear in a row field: None, a number, or a
string.  (Ints and floats both map to `num`; the source converts both with
`float(value)`.) -/
inductive Value where
  | vnone : Value
  | num (q : Dec10) : Value
  | str (s : String) : Value
deriving DecidableEq

/-- Python `str.strip()` / float's whitespace stripping, done structurally. -/
def pyTrim (s : String) : String :=
  String.mk (((s.toList.dropWhile Char.isWhitespace).reverse.dropWhile
    Char.isWhitespace).reverse)

/-- Python `str.upper()`, done structurally. -/
def pyUpper (s : String) : String := String.mk (s.toList.map Char.toUpper)

/-- Python `str.startswith(p)`. -/
def pyStarts (s p : String) : Bool := go s.toList p.toList where
  go : List Char → List Char → Bool
    | _, [] => true
    | [], _ :: _ => false
    | c :: cs, d :: ds => decide (c = d) && go cs ds

/-- Numeric value of a digit list, most significant first. -/
def digitsVal (ds : List Char) : ℕ :=
  ds.foldl (fun n c => 10 * n + (c.toNat - ('0').toNat)) 0

/-- Model of Python's builtin `float(s)` on finite numeric literals:
optional sign, then digits with at most one dot (at least one digit), then an
optional exponent.  Surrounding whitespace is stripped, as `float` does.
Returns `none` where `float` raises `ValueError`. -/
def pyFloat (s : String) : Option Dec10 :=
  let cs := (pyTrim s).toList
  let sg : ℤ × List Char :=
    match cs with
    | '+' :: rest => (1, rest)
    | '-' :: rest => (-1, rest)
    | _ => (1, cs)
  let ipRest := sg.2.span Char.isDigit
  let mant : Option (Dec10 × List Char) :=
    match ipRest.2 with
    | '.' :: rest2 =>
      let fpRest := rest2.span Char.isDigit
      if ipRest.1.isEmpty && fpRest.1.isEmpty then none
      else
        some (⟨sg.1 * ((digitsVal ipRest.1 * 10 ^ fpRest.1.length
          + digitsVal fpRest.1 : ℕ) : ℤ), fpRest.1.length⟩, fpRest.2)
    | _ =>
      if ipRest.1.isEmpty then none
      else some (⟨sg.1 * ((digitsVal ipRest.1 : ℕ) : ℤ), 0⟩, ipRest.2)
  match mant with
  | none => none
  | some (m, rest) =>
    match rest with
    | [] => some m
    | e :: rest2 =>
      if e = 'e' || e = 'E' then
        let esg : ℤ × List Char :=
          match rest2 with
          | '+' :: r => (1, r)
          | '-' :: r => (-1, r)
          | _ => (1, rest2)
        let dsRest := esg.2.span Char.isDigit
        if dsRest.1.isEmpty || !dsRest.2.isEmpty then none
        else some (dshift m (esg.1 * ((digitsVal dsRest.1 : ℕ) : ℤ)))
      else none

/-- Removal of currency glyphs, percent signs and thousands separators: the
source's five `replace(c, "")` calls, each on a single-character pattern,
which amounts to dropping every occurrence of those characters. -/
def stripSyms (s : String) : String :=
  String.mk (s.toList.filter (fun c => decide (c ∉ [',', '$', '€', '£', '%'])))

/-- The recognized magnitude suffixes. -/
def KMBT : List Char := ['K', 'M', 'B', 'T']

/-- `{"K": 1e3, "M": 1e6, "B": 1e9, "T": 1e12}.get(suffix, 1.0)`. -/
def multOf (c : Char) : Dec10 :=
  if c = 'K' then ⟨1000, 0⟩
  else if c = 'M' then ⟨1000000, 0⟩
  else if c = 'B' then ⟨1000000000, 0⟩
  else if c = 'T' then ⟨1000000000000, 0⟩
  else ⟨1, 0⟩

/-- `parse_numeric` from data_processor.py: robust numeric parser.
None → None; int/float → float(value); strings are trimmed, stripped of
currency/percent/comma characters, an exact-match trailing K/M/B/T suffix
sets a multiplier, then `float` is attempted, with a second-chance pass that
keeps only digits, dot, signs and e/E.  All failure paths return None. -/
def parse_numeric : Value → Option Dec10
  | .vnone => none
  | .num q => some q
  | .str v =>
    let s := pyTrim v
    if s = "" then none else
    let s1 := stripSyms s
    let cs := s1.toList
    let sm : List Char × Dec10 :=
      match cs.getLast? with
      | some c => if c.toUpper ∈ KMBT then (cs.dropLast, multOf c.toUpper) else (cs, ⟨1, 0⟩)
      | none => (cs, ⟨1, 0⟩)
    match pyFloat (String.mk sm.1) with
    | some q => some (dmul q sm.2)
    | none =>
      let s2 := sm.1.filter (fun c => c.isDigit || decide (c ∈ ['.', '-', '+', 'e', 'E']))
      if s2.isEmpty then none
      else
        match pyFloat (String.mk s2) with
        | some q => some (dmul q sm.2)
        | none => none

/-- Bounds per symbol with conservative sanity ranges. -/
def BOUNDS : List (String × Dec10 × Dec10) :=
  [("BTC", ⟨10, 0⟩, ⟨2000000, 0⟩),
   ("ETH", ⟨1, 0⟩, ⟨200000, 0⟩),
   ("SOL", ⟨1, 3⟩, ⟨20000, 0⟩),
   ("XRP", ⟨1, 5⟩, ⟨10000, 0⟩),
   ("BNB", ⟨1, 2⟩, ⟨100000, 0⟩)]

/-- The wide default range for symbols absent from the table. -/
def DEFAULT_BOUNDS : Dec10 × Dec10 := (⟨1, 12⟩, ⟨1000000000, 0⟩)

/-- `in_bounds(symbol, price)`: look up the upper-cased symbol in BOUNDS
(default DEFAULT_BOUNDS) and test `lo <= price <= hi`, both ends inclusive. -/
def in_bounds (symbol : String) (price : Dec10) : Bool :=
  let lh := (BOUNDS.lookup (pyUpper symbol)).getD DEFAULT_BOUNDS
  dle lh.1 price && dle price lh.2

/-- A timestamp cell as handed to `pd.to_datetime`: either a value pandas
parses (carrying its normalized ISO-8601 rendering) or one on which the
parse raises. -/
inductive TsIn where
  | good (iso : String) : TsIn
  | bad (s : String) : TsIn
deriving DecidableEq

/-- An input row (Python dict).  `Option.none` in a field models both an
absent key and a NaN cell, which the source treats alike. -/
structure Row where
  symbol : Option String := none
  price : Value := .vnone
  volume : Value := .vnone
  change_24h : Value := .vnone
  currency : Option String := none
  ts : Option TsIn := none
  source : Option String := none
deriving DecidableEq

/-- A processed row: the DataFrame row after timestamp coercion, numeric
parsing, currency defaulting and reason assignment. -/
structure VRow where
  symbol : Option String
  price : Option Dec10
  volume : Option Dec10
  change_24h : Option Dec10
  currency : String
  ts : String
  source : Option String
  invalid_reason : Option String
deriving DecidableEq

/-- The timestamp coercion
`df["ts"].apply(lambda x: pd.to_datetime(x).isoformat() if pd.notna(x) else utc_now_iso())`:
a missing/NaN cell gets `now`; a parseable value its ISO form; an
unparseable value raises (this `apply` is not inside a try/except). -/
def coerceTs (now : String) : Option TsIn → Except Unit String
  | none => .ok now
  | some (.good s) => .ok s
  | some (.bad _) => .error ()

/-- `str(row.get("symbol", ""))` on the DataFrame row: the column always
exists, a NaN cell prints as "nan". -/
def pySymStr : Option String → String
  | some s => s
  | none => "nan"

/-- The per-row reason assignment of validate_prices: `price_nan` for a null
parsed price, else `price_nonpositive` for price <= 0, else `_check_bounds`,
which returns `out_of_bounds` when `in_bounds(str(symbol).upper(), price)` is
false.  Its `except` branch (`bounds_eval_error`) is unreachable here: on
parsed rows the guarded operations (str/upper of any value, float of a
non-null float, list lookup, comparisons) are total. -/
def perRowReason (symbol : Option String) (price : Option Dec10) : Option String :=
  match price with
  | none => some ("price_nan")
  | some q =>
    if dle q ⟨0, 0⟩ then some ("price_nonpositive")
    else if in_bounds (pyUpper (pySymStr symbol)) q then none
    else some ("out_of_bounds")

/-- Row-wise view of the column passes of validate_prices: timestamp
coercion (which can raise), numeric parsing of price/volume/change_24h,
currency defaulting to "USD", and the per-row reason. -/
def buildVRow (now : String) (r : Row) : Except Unit VRow :=
  match coerceTs now r.ts with
  | .error e => .error e
  | .ok t =>
    let p := parse_numeric r.price
    .ok { symbol := r.symbol
          price := p
          volume := parse_numeric r.volume
          change_24h := parse_numeric r.change_24h
          currency := r.currency.getD ("USD")
          ts := t
          source := r.source
          invalid_reason := perRowReason r.symbol p }

/-- Sequential effectful map (the embedding of applying a raising operation
over all rows; the first raise aborts). -/
def mapE {α β : Type} (f : α → Except Unit β) : List α → Except Unit (List β)
  | [] => .ok []
  | a :: as =>
    match f a with
    | .error e => .error e
    | .ok b =>
      match mapE f as with
      | .error e => .error e
      | .ok bs => .ok (b :: bs)

/-- `df.loc[mark_idx, "invalid_reason"] = ....fillna("x_symbol_same_price")`
where `mark_idx` is the fresh RangeIndex `0..m-1` produced by
`dup.merge(df, on=["ts","price"], how="left").index`: the first `m` rows of
the frame have a null reason filled with `x_symbol_same_price`. -/
def markFirst : ℕ → List VRow → List VRow
  | _, [] => []
  | 0, l => l
  | n + 1, r :: rs =>
    (if r.invalid_reason = none
     then { r with invalid_reason := some ("x_symbol_same_price") }
     else r) :: markFirst n rs

/-- Does a row match a (ts, price) group key?  Float keys compare by value;
a null price matches no key (the keys come from non-null prices). -/
def tpMatch (t : String) (p : Dec10) (r : VRow) : Bool :=
  decide (r.ts = t) && (match r.price with
    | some q => deq q p
    | none => false)

/-- The cross-symbol collision pass of validate_prices.  Over rows with no
reason and a non-null price, group by (ts, price) and find groups with more
than one distinct (non-null) symbol; `m` counts the rows of the whole frame
matching such a group (the merge result's row count); the source then marks
rows labelled `0..m-1` — the merge's fresh RangeIndex, not the matched
rows — filling their null reasons. -/
def collisionPass (vs : List VRow) : List VRow :=
  let ok := vs.filter (fun r => decide (r.invalid_reason = none) && r.price.isSome)
  let pairs := ok.filterMap (fun r => r.price.map (fun p => (r.ts, p)))
  let dup := pairs.filter (fun tp =>
    1 < ((ok.filter (tpMatch tp.1 tp.2)).filterMap (fun r => r.symbol)).dedup.length)
  let m := (vs.filter (fun r => dup.any (fun tp => tpMatch tp.1 tp.2 r))).length
  markFirst m vs

/-- Lexicographic code-point order on strings (the order pandas uses to sort
ISO timestamp strings), computed structurally. -/
def listLe : List Char → List Char → Bool
  | [], _ => true
  | _ :: _, [] => false
  | a :: as, b :: bs =>
    if a.toNat < b.toNat then true
    else if b.toNat < a.toNat then false
    else listLe as bs

/-- String order used for the ts sort. -/
def strLe (a b : String) : Bool := listLe a.toList b.toList

/-- Stable insertion of a row into a ts-sorted list (the row goes before the
first row with a ts not smaller than its own). -/
def insertTs (r : VRow) : List VRow → List VRow
  | [] => [r]
  | x :: xs => if strLe r.ts x.ts then r :: x :: xs else x :: insertTs r xs

/-- Stable sort of rows by ts ascending (model of
`df.sort_values(["symbol", "ts"])` within one symbol group). -/
def sortByTs : List VRow → List VRow
  | [] => []
  | r :: rs => insertTs r (sortByTs rs)

/-- `g["price"].dropna().values` for the ts-sorted group of one symbol. -/
def tsSortedPrices (vs : List VRow) (sym : String) : List Dec10 :=
  (sortByTs (vs.filter (fun r => decide (r.symbol = some sym)))).filterMap
    (fun r => r.price)

/-- `len(set(prices[-5:])) == 1` under float (value) equality, for a
non-empty suffix. -/
def lastFiveEq (ps : List Dec10) : Bool :=
  match ps.drop (ps.length - 5) with
  | [] => true
  | x :: xs => xs.all (fun y => deq y x)

/-- The stuck-feed test for one symbol: at least 5 non-null prices in
ts order and the last 5 all equal. -/
def stuckFlag (vs : List VRow) (sym : String) : Bool :=
  let ps := tsSortedPrices vs sym
  decide (5 ≤ ps.length) && lastFiveEq ps

/-- The symbols flagged by the stuck-feed pass (groupby skips rows with a
null symbol; group key order does not matter for the set/dict results). -/
def stuckSyms (vs : List VRow) : List String :=
  ((vs.filterMap (fun r => r.symbol)).dedup).filter (stuckFlag vs)

/-- The two raising column passes of validate_prices (timestamp coercion,
then the pure per-row work) followed by the collision pass.  Everything
after this point in validate_prices cannot raise. -/
def validationRows (now : String) (rows : List Row) : Except Unit (List VRow) :=
  match mapE (buildVRow now) rows with
  | .error e => .error e
  | .ok vs => .ok (collisionPass vs)

/-- `validate_prices(rows)`: per-ticker validation.  Returns the cleaned
rows, the needs_fallback symbol set and the symbol → reason map (which only
ever carries the stuck-feed reason).  Sets are duplicate-free lists. -/
def validate_prices (now : String) (rows : List Row) :
    Except Unit (List VRow × List String × List (String × String)) :=
  if rows = [] then .ok ([], [], []) else
  match validationRows now rows with
  | .error e => .error e
  | .ok vs =>
    let flagged := stuckSyms vs
    let reasons := flagged.map (fun s => (s, "constant_price_last_5"))
    let needs_fallback :=
      (((vs.filter (fun r => decide (r.invalid_reason ≠ none))).filterMap
        (fun r => r.symbol)).dedup ++ flagged).dedup
    let cleaned := vs.filter (fun r => decide (r.invalid_reason = none))
    .ok (cleaned, needs_fallback, reasons)

/-- A provider record for one symbol, as the source reads it: `price` plus
the volume/change fields of either key-naming variant.  A missing key is
`.vnone`.  (An empty/falsy record is modelled as no record at all, see
`Provider`.) -/
structure PRec where
  price : Value := .vnone
  volume_24h : Value := .vnone
  usd_24h_vol : Value := .vnone
  change_24h : Value := .vnone

/-- An external secondary provider (a scraper doing network I/O, modelled as
a function from symbol to outcome).  `simple` models one exposing
`scrape_simple_prices` (looked for first), `generic` one exposing `scrape`
with the nested cryptocurrencies map.  `Except.error` models a raised
exception, `.ok none` a missing or falsy record. -/
inductive Provider where
  | simple (f : String → Except Unit (Option PRec)) : Provider
  | generic (f : String → Except Unit (Option PRec)) : Provider

/-- Calling a provider for one symbol. -/
def provCall : Provider → String → Except Unit (Option PRec)
  | .simple f, s => f s
  | .generic f, s => f s

/-- Python truthiness of a raw value (`or` between record fields). -/
def truthy : Value → Bool
  | .vnone => false
  | .num q => !deq q ⟨0, 0⟩
  | .str s => decide (s ≠ "")

/-- Python `a or b`. -/
def pyOr (a b : Value) : Value := if truthy a then a else b

/-- The volume field the source reads:
`rec.get("volume_24h") or rec.get("usd_24h_vol")` on the simple-lookup path,
`crypto.get("volume_24h")` on the generic path. -/
def provVolume : Provider → PRec → Value
  | .simple _, rc => pyOr rc.volume_24h rc.usd_24h_vol
  | .generic _, rc => rc.volume_24h

/-- Back from parsed to raw (the built fallback dict carries the already
parsed optional float). -/
def optValue : Option Dec10 → Value
  | some q => .num q
  | none => .vnone

/-- The fallback row dict built when a provider returned a record. -/
def fbRow (name : String) (p : Provider) (sym now : String) (rc : PRec) : Row :=
  { symbol := some sym
    price := optValue (parse_numeric rc.price)
    volume := optValue (parse_numeric (provVolume p rc))
    change_24h := optValue (parse_numeric rc.change_24h)
    currency := some ("USD")
    ts := some (.good now)
    source := some (name ++ "_fallback") }

/-- The inner provider loop for one symbol: a raised exception or a falsy
record moves on to the next provider; the first truthy record breaks the
loop with a built row — regardless of whether its price parses. -/
def fetchSym (providers : List (String × Provider)) (now sym : String) : Option Row :=
  match providers with
  | [] => none
  | (name, p) :: rest =>
    match provCall p sym with
    | .error _ => fetchSym rest now sym
    | .ok none => fetchSym rest now sym
    | .ok (some rc) => some (fbRow name p sym now rc)

/-- The provider list built from the available scraper classes, preferred
provider first ("coingecko" by default, else coinmarketcap leads). -/
def buildProviders (prefer : String) (cg cmc : Option Provider) :
    List (String × Provider) :=
  if prefer = "coingecko" then
    (match cg with | some p => [(("coingecko" : String), p)] | none => [])
      ++ (match cmc with | some p => [(("coinmarketcap" : String), p)] | none => [])
  else
    (match cmc with | some p => [(("coinmarketcap" : String), p)] | none => [])
      ++ (match cg with | some p => [(("coingecko" : String), p)] | none => [])

/-- `row and row.get("price") is not None and row.get("price", 0) > 0`. -/
def priceOk (r : Row) : Bool :=
  match r.price with
  | .num q => dlt ⟨0, 0⟩ q
  | _ => false

/-- `get_fallback_prices(symbols, prefer)`: for each requested symbol
(deduplicated, upper-cased; Python set order is unspecified, the model uses
first-occurrence order), try providers in preference order and keep the
first-broken row only when its price is non-null and positive. -/
def get_fallback_prices (cg cmc : Option Provider) (symbols : List String)
    (prefer : String) (now : String) : List Row :=
  if symbols = [] then [] else
  let providers := buildProviders prefer cg cmc
  ((symbols.map pyUpper).dedup).filterMap (fun sym =>
    match fetchSym providers now sym with
    | none => none
    | some row => if priceOk row then some row else none)

/-- The fallback-substitution stage of process_trading_rows: when
needs_fallback is non-empty, fetch fallback rows (preferring coingecko),
re-validate them, and append the ones that pass to the cleaned rows. -/
def fallbackStage (cg cmc : Option Provider) (now : String)
    (needs_fallback : List String) (cleaned0 : List VRow) :
    Except Unit (List VRow) :=
  if needs_fallback = [] then .ok cleaned0 else
  if get_fallback_prices cg cmc needs_fallback ("coingecko") now = [] then .ok cleaned0 else
  match validate_prices now
      (get_fallback_prices cg cmc needs_fallback ("coingecko") now) with
  | .error e => .error e
  | .ok (fb_cleaned, _, _) => .ok (cleaned0 ++ fb_cleaned)

/-- `process_trading_rows(raw_rows)`: validate, fetch fallback rows for the
needs_fallback symbols (preferring coingecko), re-validate and append them,
then block the needs_fallback symbols with no valid row plus — always — the
stuck-feed symbols of the reasons map.  The two scraper classes are the
external collaborators, passed as `cg`/`cmc` (None models a failed import). -/
def process_trading_rows (cg cmc : Option Provider) (now : String)
    (raw_rows : List Row) :
    Except Unit (List VRow × List String × List (String × String)) :=
  match validate_prices now raw_rows with
  | .error e => .error e
  | .ok (cleaned0, needs_fallback, reasons) =>
    match fallbackStage cg cmc now needs_fallback cleaned0 with
    | .error e => .error e
    | .ok cleaned =>
      let valid_syms := (cleaned.filterMap (fun r => r.symbol)).dedup
      let still_blocked :=
        if cleaned = [] then needs_fallback
        else needs_fallback.filter (fun s => decide (s ∉ valid_syms))
      let blocked :=
        (still_blocked ++ (reasons.filter (fun sr =>
          pyStarts sr.2 ("constant_price"))).map (fun sr => sr.1)).dedup
      .ok (cleaned, blocked, reasons)

/-! Extractors over pipeline results and concrete inputs used to instantiate
the theorems below. -/

/-- The cleaned rows of a pipeline result (empty on a raised exception). -/
def okRows (r : Except Unit (List VRow × List String × List (String × String))) :
    List VRow :=
  match r with
  | .ok t => t.1
  | .error _ => []

/-- The symbol set (needs_fallback or blocked) of a pipeline result. -/
def okSet (r : Except Unit (List VRow × List String × List (String × String))) :
    List String :=
  match r with
  | .ok t => t.2.1
  | .error _ => []

/-- The reasons map of a pipeline result. -/
def okMap (r : Except Unit (List VRow × List String × List (String × String))) :
    List (String × String) :=
  match r with
  | .ok t => t.2.2
  | .error _ => []

/-- The rows of a validationRows result. -/
def okVRows (r : Except Unit (List VRow)) : List VRow :=
  match r with
  | .ok l => l
  | .error _ => []

/-- A cleaned DataFrame row converted back to an input dict
(`cleaned.to_dict("records")`): the parsed price is carried as a numeric,
the normalized timestamp as a parseable value.  (The all-null
invalid_reason column would travel along as a supplemental key the
validator ignores.) -/
def vrowToRow (v : VRow) : Row :=
  { symbol := v.symbol
    price := optValue v.price
    volume := optValue v.volume
    change_24h := optValue v.change_24h
    currency := some v.currency
    ts := some (.good v.ts)
    source := v.source }

/-- Shorthand for a plain test row: symbol, integer price, timestamp. -/
def mkRow (sym : String) (p : ℤ) (t : String) : Row :=
  { symbol := some sym, price := .num ⟨p, 0⟩, ts := some (.good t) }

/-- A stub provider always answering with price 50000. -/
def cgStub50k : Provider := .simple (fun _ => .ok (some { price := .num ⟨50000, 0⟩ }))

/-- A stub provider always answering with price 60000. -/
def cgStub60k : Provider := .simple (fun _ => .ok (some { price := .num ⟨60000, 0⟩ }))

/-- A stub provider answering with a record whose price does not parse. -/
def provNA : Provider := .simple (fun _ => .ok (some { price := .str ("N/A") }))

/-- A stub provider call returning no record for any symbol. -/
def fNoRec : String → Except Unit (Option PRec) := fun _ => .ok none

/-- A stub provider call answering every symbol with a record of price 100. -/
def gRec100 : String → Except Unit (Option PRec) :=
  fun _ => .ok (some { price := .num ⟨100, 0⟩ })

/-- A stub provider answering every symbol with a record of price 100. -/
def prov100 : Provider := .simple gRec100

/-- Five constant-price BTC rows: a stuck feed whose rows are individually
valid. -/
def c1raw : List Row :=
  [mkRow ("BTC") 50000 ("t1"), mkRow ("BTC") 50000 ("t2"), mkRow ("BTC") 50000 ("t3"),
   mkRow ("BTC") 50000 ("t4"), mkRow ("BTC") 50000 ("t5")]

/-- The collision scenario of P4 with the colliding pair placed after an
unrelated row: XRP at t1, then BTC and ETH sharing (t0, 100). -/
def c2rows : List Row :=
  [mkRow ("XRP") 100 ("t1"), mkRow ("BTC") 100 ("t0"), mkRow ("ETH") 100 ("t0")]

/-- A row whose provided timestamp fails to parse. -/
def c3badRow : Row :=
  { symbol := some ("BTC"), price := .num ⟨100, 0⟩, ts := some (.bad ("not a date")) }

/-- A row whose provided timestamp parses. -/
def c3goodRow : Row :=
  { symbol := some ("BTC"), price := .num ⟨100, 0⟩, ts := some (.good ("t1")) }

/-- A batch with a stuck BTC feed (5 equal trailing prices after an earlier
differing one) and an ETH feed with only 4 equal trailing prices among 5. -/
def c6rows : List Row :=
  [mkRow ("BTC") 49000 ("t1"), mkRow ("BTC") 50000 ("t2"), mkRow ("BTC") 50000 ("t3"),
   mkRow ("BTC") 50000 ("t4"), mkRow ("BTC") 50000 ("t5"), mkRow ("BTC") 50000 ("t6"),
   mkRow ("ETH") 10 ("s1"), mkRow ("ETH") 20 ("s2"), mkRow ("ETH") 20 ("s3"),
   mkRow ("ETH") 20 ("s4"), mkRow ("ETH") 20 ("s5")]

/-- The collision-pass rows of the c6 batch. -/
def c6vs : List VRow := okVRows (validationRows ("t9") c6rows)

/-- A lower-case-symbol row with an invalid price. -/
def c7rowLower : Row := { symbol := some ("btc"), price := .num ⟨-1, 0⟩ }

/-- Five good constant BTC rows followed by one out-of-bounds row: the
invalid row breaks the trailing window, so run one sees no stuck feed. -/
def c9raw : List Row :=
  [mkRow ("BTC") 50000 ("t1"), mkRow ("BTC") 50000 ("t2"), mkRow ("BTC") 50000 ("t3"),
   mkRow ("BTC") 50000 ("t4"), mkRow ("BTC") 50000 ("t5"), mkRow ("BTC") 5 ("t6")]

/-- First pipeline run on the c9 batch (fallback answers 50000). -/
def c9run1 : Except Unit (List VRow × List String × List (String × String)) :=
  process_trading_rows (some cgStub50k) none ("t7") c9raw

/-- Second pipeline run, on the cleaned output of the first. -/
def c9run2 : Except Unit (List VRow × List String × List (String × String)) :=
  process_trading_rows (some cgStub50k) none ("t8") ((okRows c9run1).map vrowToRow)

/-- A cleaned BTC row that re-validates to itself. -/
def vrBTC : VRow :=
  { symbol := some ("BTC"), price := some ⟨50000, 0⟩, volume := none,
    change_24h := none, currency := "USD", ts := "t1", source := none,
    invalid_reason := none }

/-- The fallback row produced by cgStub50k for a lower-case "btc" request. -/
def fbRowBTC : Row :=
  { symbol := some ("BTC"), price := .num ⟨50000, 0⟩, volume := .vnone,
    change_24h := .vnone, currency := some ("USD"), ts := some (.good ("t0")),
    source := some ("coingecko_fallback") }

/-- A row without a timestamp. -/
def rowNoTs : Row := { symbol := some ("BTC"), price := .num ⟨100, 0⟩ }

/-- What validate_prices makes of `rowNoTs` when now = "t0". -/
def vrNoTs : VRow :=
  { symbol := some ("BTC"), price := some ⟨100, 0⟩, volume := none,
    change_24h := none, currency := "USD", ts := "t0", source := none,
    invalid_reason := none }

/-! Helper lemmas. -/

/-- Members of a successful effectful map come from successful applications. -/
theorem mapE_ok_mem {α β : Type} (f : α → Except Unit β) :
    ∀ (l : List α) (l' : List β), mapE f l = .ok l' →
      ∀ b ∈ l', ∃ a ∈ l, f a = .ok b := by
  intro l
  induction l with
  | nil =>
    intro l' h b hb
    simp only [mapE] at h
    cases h
    simp at hb
  | cons a as ih =>
    intro l' h b hb
    simp only [mapE] at h
    cases hfa : f a with
    | error e => rw [hfa] at h; cases h
    | ok b0 =>
      rw [hfa] at h
      cases hrest : mapE f as with
      | error e => rw [hrest] at h; cases h
      | ok bs =>
        rw [hrest] at h
        cases h
        rcases List.mem_cons.mp hb with rfl | hb2
        · exact ⟨a, List.mem_cons_self a as, hfa⟩
        · obtain ⟨a2, ha2, hfa2⟩ := ih bs hrest b hb2
          exact ⟨a2, List.mem_cons_of_mem a ha2, hfa2⟩

/-- An effectful map over rows that all succeed succeeds. -/
theorem mapE_ok_of_all {α β : Type} (f : α → Except Unit β) :
    ∀ l : List α, (∀ a ∈ l, ∃ b, f a = .ok b) → ∃ l', mapE f l = .ok l' := by
  intro l
  induction l with
  | nil => intro _; exact ⟨[], rfl⟩
  | cons a as ih =>
    intro h
    obtain ⟨b, hb⟩ := h a (List.mem_cons_self a as)
    obtain ⟨bs, hbs⟩ := ih (fun x hx => h x (List.mem_cons_of_mem a hx))
    exact ⟨b :: bs, by simp only [mapE, hb, hbs]⟩

/-- An effectful map over a list with a failing member fails. -/
theorem mapE_error_of_mem {α β : Type} (f : α → Except Unit β) :
    ∀ (l : List α) (a : α), a ∈ l → f a = .error () → mapE f l = .error () := by
  intro l
  induction l with
  | nil => intro a ha; simp at ha
  | cons x xs ih =>
    intro a ha hfa
    rcases List.mem_cons.mp ha with rfl | ha2
    · simp only [mapE, hfa]
    · cases hfx : f x with
      | error e => cases e; simp only [mapE, hfx]
      | ok b => simp only [mapE, hfx, ih a ha2 hfa]

/-- Every row of a marked list is a row of the input, marked or not. -/
theorem markFirst_mem {r2 : VRow} :
    ∀ (n : ℕ) (l : List VRow), r2 ∈ markFirst n l →
      ∃ r ∈ l, r2 = r ∨
        r2 = { r with invalid_reason := some ("x_symbol_same_price") } := by
  intro n l
  induction l generalizing n with
  | nil => intro h; simp [markFirst] at h
  | cons x xs ih =>
    intro h
    cases n with
    | zero =>
      simp only [markFirst] at h
      exact ⟨r2, h, Or.inl rfl⟩
    | succ n =>
      simp only [markFirst] at h
      rcases List.mem_cons.mp h with h1 | h2
      · by_cases hx : x.invalid_reason = none
        · rw [if_pos hx] at h1
          exact ⟨x, List.mem_cons_self x xs, Or.inr h1⟩
        · rw [if_neg hx] at h1
          exact ⟨x, List.mem_cons_self x xs, Or.inl h1⟩
      · obtain ⟨r, hr, hc⟩ := ih n h2
        exact ⟨r, List.mem_cons_of_mem x hr, hc⟩

/-- A built row records the per-row reason over its own symbol and parsed
price fields. -/
theorem buildVRow_reason {now : String} {r : Row} {vr : VRow}
    (h : buildVRow now r = .ok vr) :
    vr.invalid_reason = perRowReason vr.symbol vr.price := by
  unfold buildVRow at h
  cases hts : coerceTs now r.ts with
  | error e => rw [hts] at h; cases h
  | ok t => rw [hts] at h; cases h; rfl

/-- A fetched fallback row carries the requested symbol. -/
theorem fetchSym_symbol :
    ∀ (ps : List (String × Provider)) (now sym : String) (row : Row),
      fetchSym ps now sym = some row → row.symbol = some sym := by
  intro ps
  induction ps with
  | nil => intro now sym row h; simp [fetchSym] at h
  | cons p rest ih =>
    intro now sym row h
    obtain ⟨name, pr⟩ := p
    simp only [fetchSym] at h
    cases hc : provCall pr sym with
    | error e => rw [hc] at h; exact ih now sym row h
    | ok orc =>
      rw [hc] at h
      cases orc with
      | none => exact ih now sym row h
      | some rc => cases h; rfl

/-- The rows of a successful validate_prices come from its collision-pass
stage, and the cleaned rows are exactly those with a null reason. -/
theorem validate_prices_ok_shape {now : String} {rows : List Row}
    {c : List VRow} {nf : List String} {rs : List (String × String)}
    (h : validate_prices now rows = .ok (c, nf, rs)) :
    ∃ vs, validationRows now rows = .ok vs ∧
      c = vs.filter (fun r => decide (r.invalid_reason = none)) ∧
      nf = (((vs.filter (fun r => decide (r.invalid_reason ≠ none))).filterMap
        (fun r => r.symbol)).dedup ++ stuckSyms vs).dedup ∧
      rs = (stuckSyms vs).map (fun s => (s, "constant_price_last_5")) := by
  by_cases hrow : rows = []
  · subst hrow
    simp only [validate_prices, if_pos rfl] at h
    cases h
    exact ⟨[], rfl, rfl, rfl, rfl⟩
  · simp only [validate_prices, if_neg hrow] at h
    cases hv : validationRows now rows with
    | error e => rw [hv] at h; cases h
    | ok vs =>
      rw [hv] at h
      cases h
      exact ⟨vs, rfl, rfl, rfl, rfl⟩

/-- A cleaned row of validate_prices has a null per-row reason. -/
theorem validate_cleaned_perRow {now : String} {rows : List Row}
    {c : List VRow} {nf : List String} {rs : List (String × String)}
    (h : validate_prices now rows = .ok (c, nf, rs)) :
    ∀ r ∈ c, perRowReason r.symbol r.price = none := by
  intro r hr
  obtain ⟨vs, hv, hc, _, _⟩ := validate_prices_ok_shape h
  subst hc
  have hfilter := List.mem_filter.mp hr
  have hnone : r.invalid_reason = none := by
    simpa using hfilter.2
  have hmemvs : r ∈ vs := hfilter.1
  unfold validationRows at hv
  cases hm : mapE (buildVRow now) rows with
  | error e => rw [hm] at hv; cases hv
  | ok vs0 =>
    rw [hm] at hv
    cases hv
    obtain ⟨r0, hr0, hcase⟩ := markFirst_mem _ _ hmemvs
    rcases hcase with hEq | hEq
    · obtain ⟨a, _, hba⟩ := mapE_ok_mem _ _ _ hm r0 hr0
      subst hEq
      rw [← buildVRow_reason hba]
      exact hnone
    · rw [hEq] at hnone
      simp at hnone

/-- A price that is not ≤ 0 is > 0 (value order on decimals). -/
theorem dlt_zero_of_not_dle_zero (q : Dec10) (h : dle q ⟨0, 0⟩ = false) :
    dlt ⟨0, 0⟩ q = true := by
  simp only [dle, decide_eq_false_iff_not, not_le] at h
  simp only [dlt, decide_eq_true_eq]
  exact h

/-- A null per-row reason means: non-null price, positive, in bounds for the
upper-cased symbol. -/
theorem perRow_none_props (sym : Option String) (p : Option Dec10)
    (h : perRowReason sym p = none) :
    ∃ q, p = some q ∧ dlt ⟨0, 0⟩ q = true ∧
      in_bounds (pyUpper (pySymStr sym)) q = true := by
  cases p with
  | none => simp [perRowReason] at h
  | some q =>
    cases hle : dle q ⟨0, 0⟩ with
    | true => simp [perRowReason, hle] at h
    | false =>
      cases hb : in_bounds (pyUpper (pySymStr sym)) q with
      | false => simp [perRowReason, hle, hb] at h
      | true => exact ⟨q, rfl, dlt_zero_of_not_dle_zero q hle, hb⟩

/-- The cleaned rows a successful fallback stage returns: either the
original cleaned rows, or those plus the cleaned part of a successful
re-validation of the fetched fallback rows. -/
theorem fallbackStage_ok {cg cmc : Option Provider} {now : String}
    {nf : List String} {c0 cleaned : List VRow}
    (h : fallbackStage cg cmc now nf c0 = .ok cleaned) :
    cleaned = c0 ∨ ∃ fbc nf2 rs2,
      validate_prices now (get_fallback_prices cg cmc nf ("coingecko") now)
        = .ok (fbc, nf2, rs2) ∧ cleaned = c0 ++ fbc := by
  unfold fallbackStage at h
  by_cases h1 : nf = []
  · rw [if_pos h1] at h
    cases h
    exact Or.inl rfl
  · rw [if_neg h1] at h
    by_cases h2 : get_fallback_prices cg cmc nf ("coingecko") now = []
    · rw [if_pos h2] at h
      cases h
      exact Or.inl rfl
    · rw [if_neg h2] at h
      cases hvfb : validate_prices now
          (get_fallback_prices cg cmc nf ("coingecko") now) with
      | error e => rw [hvfb] at h; cases h
      | ok trip2 =>
        obtain ⟨fbc, nf2, rs2⟩ := trip2
        rw [hvfb] at h
        cases h
        exact Or.inr ⟨fbc, nf2, rs2, rfl, rfl⟩

/-! Claim theorems. -/

/-- C1: every symbol whose entry in the reasons map of process_trading_rows
begins with the constant_price prefix is in the returned blocked set,
unconditionally: the blocked set is the union of the still-blocked symbols
with all stuck-feed symbols of the reasons map, applied regardless of
whether fallback resolution put a valid replacement row for the symbol into
the final cleaned rows. -/
theorem stuck_reasons_always_blocked :
    ∀ cg cmc now raw c b rs,
      process_trading_rows cg cmc now raw = .ok (c, b, rs) →
      ∀ s r, (s, r) ∈ rs → pyStarts r ("constant_price") = true → s ∈ b := by
  intro cg cmc now raw c b rs h s r hmem hpre
  unfold process_trading_rows at h
  cases hv : validate_prices now raw with
  | error e => rw [hv] at h; exact Except.noConfusion h
  | ok trip =>
    obtain ⟨c0, nf, rs0⟩ := trip
    simp only [hv] at h
    cases hf : fallbackStage cg cmc now nf c0 with
    | error e => simp only [hf] at h; exact Except.noConfusion h
    | ok cleaned =>
      simp only [hf] at h
      cases h
      refine List.mem_dedup.mpr (List.mem_append.mpr (Or.inr ?_))
      exact List.mem_map.mpr ⟨(s, r), List.mem_filter.mpr ⟨hmem, hpre⟩, rfl⟩

/-- Witness for C1: five constant BTC rows with a fallback provider
supplying a differing, in-bounds replacement (60000): BTC stays blocked. -/
theorem stuck_reasons_always_blocked_witness :
    "BTC" ∈ okSet (process_trading_rows (some cgStub60k) none ("t9") c1raw) :=
  stuck_reasons_always_blocked (some cgStub60k) none ("t9") c1raw
    (okRows (process_trading_rows (some cgStub60k) none ("t9") c1raw))
    (okSet (process_trading_rows (some cgStub60k) none ("t9") c1raw))
    (okMap (process_trading_rows (some cgStub60k) none ("t9") c1raw))
    rfl ("BTC") ("constant_price_last_5") (by decide) (by decide)

/-- C6: a symbol carries the constant_price_last_5 reason exactly when its
ts-sorted non-null prices number at least 5 and the last 5 are equal; the
flag lives only in the reasons map / flagged set — rows are never given an
invalid_reason by this pass, so individually valid rows of a flagged symbol
stay in the cleaned rows. -/
theorem stuck_feed_threshold :
    ∀ now rows vs c nf rs,
      validationRows now rows = .ok vs →
      validate_prices now rows = .ok (c, nf, rs) →
      (∀ sym, ((sym, ("constant_price_last_5")) ∈ rs ↔
        (sym ∈ (vs.filterMap (fun r => r.symbol)).dedup ∧
         5 ≤ (tsSortedPrices vs sym).length ∧
         lastFiveEq (tsSortedPrices vs sym) = true))) ∧
      (∀ r ∈ vs, r.invalid_reason = none → r ∈ c) ∧
      (∀ r ∈ c, r.invalid_reason = none) := by
  intro now rows vs c nf rs h1 h2
  obtain ⟨vs2, hv2, hc, hnf, hrs⟩ := validate_prices_ok_shape h2
  rw [hv2] at h1
  cases h1
  refine ⟨?_, ?_, ?_⟩
  · intro sym
    rw [hrs]
    constructor
    · intro hmem
      obtain ⟨a, ha, heq⟩ := List.mem_map.mp hmem
      injection heq with he1 he2
      subst he1
      simpa [stuckSyms, stuckFlag, List.mem_filter, Bool.and_eq_true,
        decide_eq_true_eq] using ha
    · intro hcond
      refine List.mem_map.mpr ⟨sym, ?_, rfl⟩
      simpa [stuckSyms, stuckFlag, List.mem_filter, Bool.and_eq_true,
        decide_eq_true_eq] using hcond
  · intro r hr hnone
    rw [hc]
    exact List.mem_filter.mpr ⟨hr, by simp [hnone]⟩
  · intro r hr
    rw [hc] at hr
    simpa using (List.mem_filter.mp hr).2

/-- Witness for C6: in the c6 batch BTC (5 equal trailing prices after an
earlier different one) is flagged, ETH (only 4 equal trailing among its 5
prices) is not, and BTC's individually valid rows stay cleaned. -/
theorem stuck_feed_threshold_witness :
    (("BTC", ("constant_price_last_5")) ∈ okMap (validate_prices ("t9") c6rows)) ∧
    (("ETH", ("constant_price_last_5")) ∉ okMap (validate_prices ("t9") c6rows)) := by
  have h := stuck_feed_threshold ("t9") c6rows c6vs
    (okRows (validate_prices ("t9") c6rows))
    (okSet (validate_prices ("t9") c6rows))
    (okMap (validate_prices ("t9") c6rows))
    rfl rfl
  exact ⟨(h.1 ("BTC")).mpr (by decide),
    fun hmem => absurd ((h.1 ("ETH")).mp hmem) (by decide)⟩

/-- C5: parse_numeric is total over string, numeric and null inputs — it
returns a float or null and never raises (the embedding is a total function
into Option) — and on the spec's examples: "$1,234.50" parses to 1234.50,
"2.5B" to 2.5e9, "N/A" to null, null to null, and the number 42 to 42.0. -/
theorem parse_numeric_total_examples :
    (∀ v : Value, parse_numeric v = none ∨ ∃ q, parse_numeric v = some q) ∧
    parse_numeric (.str ("$1,234.50")) = some ⟨123450, 2⟩ ∧
    dval ⟨123450, 2⟩ = 1234.5 ∧
    parse_numeric (.str ("2.5B")) = some ⟨25000000000, 1⟩ ∧
    dval ⟨25000000000, 1⟩ = 2500000000 ∧
    parse_numeric (.str ("N/A")) = none ∧
    parse_numeric .vnone = none ∧
    parse_numeric (.num ⟨42, 0⟩) = some ⟨42, 0⟩ := by
  refine ⟨fun v => ?_, by decide, by norm_num [dval], by decide,
    by norm_num [dval], by decide, rfl, rfl⟩
  cases h : parse_numeric v
  · exact Or.inl rfl
  · exact Or.inr ⟨_, rfl⟩

/-- C4: the per-row reason of validate_prices is assigned by short-circuit
in priority order: null price → price_nan; else price ≤ 0 →
price_nonpositive; else failed bounds check → out_of_bounds; else no reason.
(The bounds_eval_error branch of the source is the reason for an exception
inside the bounds check, which cannot fire on parsed rows: every guarded
operation there is total.)  The first conjunct ties the reason stored on a
built row to this priority function. -/
theorem reason_priority :
    (∀ now r vr, buildVRow now r = Except.ok vr →
      vr.invalid_reason = perRowReason vr.symbol vr.price) ∧
    (∀ sym, perRowReason sym none = some ("price_nan")) ∧
    (∀ sym q, dle q ⟨0, 0⟩ = true →
      perRowReason sym (some q) = some ("price_nonpositive")) ∧
    (∀ sym q, dle q ⟨0, 0⟩ = false →
      in_bounds (pyUpper (pySymStr sym)) q = false →
      perRowReason sym (some q) = some ("out_of_bounds")) ∧
    (∀ sym q, dle q ⟨0, 0⟩ = false →
      in_bounds (pyUpper (pySymStr sym)) q = true →
      perRowReason sym (some q) = none) := by
  refine ⟨fun now r vr h => buildVRow_reason h, fun sym => rfl,
    fun sym q h => ?_, fun sym q h1 h2 => ?_, fun sym q h1 h2 => ?_⟩
  · simp [perRowReason, h]
  · simp [perRowReason, h1, h2]
  · simp [perRowReason, h1, h2]

/-- Witness for C4: a missing price gets price_nan; a negative price gets
price_nonpositive (not out_of_bounds, though 5 is also below BTC's lower
bound); an in-range positive BTC price gets no reason. -/
theorem reason_priority_witness :
    perRowReason (some ("BTC")) none = some ("price_nan") ∧
    perRowReason (some ("BTC")) (some ⟨-5, 0⟩) = some ("price_nonpositive") ∧
    perRowReason (some ("BTC")) (some ⟨5, 0⟩) = some ("out_of_bounds") ∧
    perRowReason (some ("BTC")) (some ⟨50000, 0⟩) = none :=
  ⟨reason_priority.2.1 (some ("BTC")),
   reason_priority.2.2.1 (some ("BTC")) ⟨-5, 0⟩ (by decide),
   reason_priority.2.2.2.1 (some ("BTC")) ⟨5, 0⟩ (by decide) (by decide),
   reason_priority.2.2.2.2 (some ("BTC")) ⟨50000, 0⟩ (by decide) (by decide)⟩

/-- C2 (code bug): on the c2 batch — XRP at t1 placed first, then BTC and
ETH sharing (t0, 100) — the collision pass marks XRP and BTC and leaves ETH
clean: `dup.merge(df, on=["ts","price"], how="left").index` is the merge
result's fresh RangeIndex 0..m-1, not the index labels of the colliding
rows, so the first m rows of the batch are marked instead of the group. -/
theorem collision_pass_marks_leading_rows :
    ((okVRows (validationRows ("T") c2rows)).map
      (fun r => (r.symbol, r.invalid_reason))) =
      [(some ("XRP"), some ("x_symbol_same_price")),
       (some ("BTC"), some ("x_symbol_same_price")),
       (some ("ETH"), none)] ∧
    (okRows (validate_prices ("T") c2rows)).map (fun r => r.symbol) =
      [some ("ETH")] ∧
    okSet (validate_prices ("T") c2rows) = ["XRP", "BTC"] := by
  refine ⟨by decide, by decide, by decide⟩

/-- C3 (counterexample): a row whose provided timestamp fails to parse is
not treated as missing — the `pd.to_datetime` application raises and the
exception escapes validate_prices. -/
theorem ts_parse_error_escapes :
    validate_prices ("t0") [c3badRow] = .error () := rfl

/-- C3 (amended): validate_prices raises exactly from timestamp
normalization — batches whose provided timestamps all parse succeed (the
numeric parser never raises and the collision/stuck passes swallow their
exceptions), a batch containing an unparseable provided timestamp raises,
and a row with a missing timestamp is assigned the current UTC instant and
is never invalidated for that alone. -/
theorem ts_failure_semantics :
    (∀ now rows, (∀ r ∈ rows, ∀ s, r.ts ≠ some (TsIn.bad s)) →
      ∃ res, validate_prices now rows = .ok res) ∧
    (∀ now rows r, r ∈ rows → (∃ s, r.ts = some (TsIn.bad s)) →
      validate_prices now rows = .error ()) ∧
    (∀ now r vr, r.ts = none → buildVRow now r = .ok vr → vr.ts = now) := by
  refine ⟨?_, ?_, ?_⟩
  · intro now rows hgood
    by_cases hrow : rows = []
    · exact ⟨([], [], []), by simp [validate_prices, hrow]⟩
    · have hall : ∀ r ∈ rows, ∃ vr, buildVRow now r = .ok vr := by
        intro r hr
        cases hts : r.ts with
        | none => exact ⟨_, by unfold buildVRow; rw [hts]; rfl⟩
        | some t =>
          cases t with
          | good s => exact ⟨_, by unfold buildVRow; rw [hts]; rfl⟩
          | bad s => exact absurd hts (hgood r hr s)
      obtain ⟨vs0, hvs0⟩ := mapE_ok_of_all _ rows hall
      have hv : validationRows now rows = .ok (collisionPass vs0) := by
        unfold validationRows
        rw [hvs0]
      cases hres : validate_prices now rows with
      | ok res => exact ⟨res, rfl⟩
      | error e =>
        exfalso
        unfold validate_prices at hres
        rw [if_neg hrow, hv] at hres
        simp at hres
  · intro now rows r hr hbad
    obtain ⟨s, hs⟩ := hbad
    have hb : buildVRow now r = .error () := by
      unfold buildVRow
      rw [hs]
      rfl
    have hm := mapE_error_of_mem (buildVRow now) rows r hr hb
    have hne : rows ≠ [] := List.ne_nil_of_mem hr
    unfold validate_prices validationRows
    rw [if_neg hne, hm]
  · intro now r vr hts hb
    unfold buildVRow at hb
    rw [hts] at hb
    cases hb
    rfl

/-- Witness for C3 (amended): a batch with a parseable timestamp validates;
a batch with an unparseable one raises; the missing-timestamp row gets
`now` as its timestamp. -/
theorem ts_failure_semantics_witness :
    (∃ res, validate_prices ("t0") [c3goodRow] = .ok res) ∧
    validate_prices ("t1") [c3badRow, c3goodRow] = .error () ∧
    vrNoTs.ts = "t0" := by
  refine ⟨?_, ?_, ?_⟩
  · refine ts_failure_semantics.1 ("t0") [c3goodRow] ?_
    intro r hr s hcon
    rw [List.mem_singleton] at hr
    subst hr
    simp [c3goodRow] at hcon
  · exact ts_failure_semantics.2.1 ("t1") [c3badRow, c3goodRow] c3badRow
      (List.mem_cons_self c3badRow [c3goodRow]) ⟨("not a date"), rfl⟩
  · exact ts_failure_semantics.2.2 ("t0") rowNoTs vrNoTs rfl rfl

/-- C7 (counterexample): symbol identity is not case-insensitive throughout
— validate_prices returns the raw lower-case symbol in needs_fallback, and
process_trading_rows blocks "btc" even though fallback resolution produced a
valid row for upper-cased "BTC" in the final cleaned rows (the membership
test compares raw strings). -/
theorem symbol_sets_not_canonicalized :
    okSet (validate_prices ("t0") [c7rowLower]) = ["btc"] ∧
    pyUpper ("btc") = "BTC" ∧
    okSet (process_trading_rows (some cgStub50k) none ("t0") [c7rowLower]) = ["btc"] ∧
    (okRows (process_trading_rows (some cgStub50k) none ("t0") [c7rowLower])).map
      (fun r => r.symbol) = [some ("BTC")] := by
  refine ⟨by decide, by decide, by decide, by decide⟩

/-- C7 (amended): canonical upper-casing happens only in the bounds lookup
(symbols equal up to case get the same bounds decision) and in the fallback
resolver (requested symbols are deduplicated and upper-cased, and every
resolved row carries an upper-cased symbol); stuck-feed grouping,
needs_fallback, the reasons map and the blocked set use raw symbol strings
verbatim. -/
theorem symbol_case_handling :
    (∀ s t p, pyUpper s = pyUpper t → in_bounds s p = in_bounds t p) ∧
    (∀ cg cmc syms prefer now r,
      r ∈ get_fallback_prices cg cmc syms prefer now →
      ∃ s, s ∈ syms ∧ r.symbol = some (pyUpper s)) := by
  constructor
  · intro s t p h
    unfold in_bounds
    rw [h]
  · intro cg cmc syms prefer now r hr
    unfold get_fallback_prices at hr
    by_cases hs : syms = []
    · rw [if_pos hs] at hr
      exact absurd hr (List.not_mem_nil r)
    · rw [if_neg hs] at hr
      obtain ⟨u, hu, hfu⟩ := List.mem_filterMap.mp hr
      cases hf : fetchSym (buildProviders prefer cg cmc) now u with
      | none =>
        simp only [hf] at hfu
        exact Option.noConfusion hfu
      | some row =>
        simp only [hf] at hfu
        by_cases hp : priceOk row = true
        · rw [if_pos hp] at hfu
          cases hfu
          obtain ⟨s, hsmem, hupper⟩ := List.mem_map.mp (List.mem_dedup.mp hu)
          refine ⟨s, hsmem, ?_⟩
          rw [hupper]
          exact fetchSym_symbol _ now u _ hf
        · rw [if_neg hp] at hfu
          exact Option.noConfusion hfu

/-- Witness for C7 (amended): "btc" and "BTC" get the same bounds decision,
and the fallback row resolved for a lower-case "btc" request carries the
upper-cased symbol. -/
theorem symbol_case_handling_witness :
    in_bounds ("btc") ⟨5, 0⟩ = in_bounds ("BTC") ⟨5, 0⟩ ∧
    (∃ s, s ∈ [("btc" : String)] ∧ fbRowBTC.symbol = some (pyUpper s)) :=
  ⟨symbol_case_handling.1 ("btc") ("BTC") ⟨5, 0⟩ (by decide),
   symbol_case_handling.2 (some cgStub50k) none [("btc")] ("coingecko") ("t0")
     fbRowBTC (by decide)⟩

/-- C8 (counterexample): with the preferred provider returning a record
whose price does not parse and the secondary holding a parseable, positive,
in-bounds price, get_fallback_prices returns no row at all for the symbol —
the loop stopped at the first provider returning a record, not at the first
record with a parseable defined price. -/
theorem provider_stops_at_first_record :
    get_fallback_prices (some provNA) (some prov100) [("BTC" : String)]
      ("coingecko") ("t0") = [] ∧
    parse_numeric (Value.str ("N/A")) = none ∧
    parse_numeric (Value.num ⟨100, 0⟩) = some ⟨100, 0⟩ ∧
    dlt ⟨0, 0⟩ ⟨100, 0⟩ = true ∧
    in_bounds ("BTC") ⟨100, 0⟩ = true := by
  refine ⟨by decide, by decide, rfl, by decide, by decide⟩

/-- C8 (amended): providers are tried in preference order with the
preferred one first, the per-symbol loop breaks on the first provider whose
call returns a truthy record (regardless of whether its price parses), and
the built row — tagged with that provider name suffixed _fallback — is kept
exactly when its parsed price is non-null and positive.  Hence a preferred
provider with no record and a secondary one with a parseable positive price
yield a row tagged with the secondary provider's fallback tag. -/
theorem provider_loop_semantics :
    (∀ f g sym now rc q,
      f (pyUpper sym) = .ok (some rc) →
      parse_numeric (PRec.price rc) = some q → dlt ⟨0, 0⟩ q = true →
      (get_fallback_prices (some (.simple f)) (some (.simple g)) [sym]
        ("coingecko") now).map (fun r => r.source) =
        [some ("coingecko_fallback")]) ∧
    (∀ f g sym now rc q,
      f (pyUpper sym) = .ok none →
      g (pyUpper sym) = .ok (some rc) →
      parse_numeric (PRec.price rc) = some q → dlt ⟨0, 0⟩ q = true →
      (get_fallback_prices (some (.simple f)) (some (.simple g)) [sym]
        ("coingecko") now).map (fun r => r.source) =
        [some ("coinmarketcap_fallback")]) := by
  constructor
  · intro f g sym now rc q h1 h2 h3
    unfold get_fallback_prices
    rw [if_neg (by simp : ¬([sym] : List String) = [])]
    have hd : ((List.map pyUpper [sym]).dedup) = [pyUpper sym] := by simp
    rw [hd]
    have hfetch : fetchSym (buildProviders ("coingecko") (some (.simple f))
        (some (.simple g))) now (pyUpper sym)
        = some (fbRow ("coingecko") (.simple f) (pyUpper sym) now rc) := by
      simp [buildProviders, fetchSym, provCall, h1]
    simp [hfetch, priceOk, fbRow, optValue, h2, h3]
  · intro f g sym now rc q h1 h2 h3 h4
    unfold get_fallback_prices
    rw [if_neg (by simp : ¬([sym] : List String) = [])]
    have hd : ((List.map pyUpper [sym]).dedup) = [pyUpper sym] := by simp
    rw [hd]
    have hfetch : fetchSym (buildProviders ("coingecko") (some (.simple f))
        (some (.simple g))) now (pyUpper sym)
        = some (fbRow ("coinmarketcap") (.simple g) (pyUpper sym) now rc) := by
      simp [buildProviders, fetchSym, provCall, h1, h2]
    simp [hfetch, priceOk, fbRow, optValue, h3, h4]

/-- Witness for C8 (amended): a no-record preferred provider and a
secondary provider answering price 100 resolve to a coinmarketcap-tagged
row. -/
theorem provider_loop_semantics_witness :
    (get_fallback_prices (some (.simple fNoRec)) (some (.simple gRec100))
      [("btc" : String)] ("coingecko") ("t0")).map (fun r => r.source) =
      [some ("coinmarketcap_fallback")] :=
  provider_loop_semantics.2 fNoRec gRec100 ("btc") ("t0")
    { price := .num ⟨100, 0⟩ } ⟨100, 0⟩ rfl rfl rfl (by decide)

/-- C9 (counterexample): run one on the c9 batch succeeds with no blocked
symbols and no stuck-feed reasons (the out-of-bounds sixth row breaks the
constant trailing window, and the fallback row heals the symbol), yet
re-running on its cleaned output blocks BTC: dropping the invalid row
exposed five equal trailing prices, so the re-run flags a stuck feed. -/
theorem rerun_not_idempotent :
    okSet c9run1 = [] ∧ okMap c9run1 = [] ∧ (okRows c9run1).length = 6 ∧
    okSet c9run2 = ["BTC"] ∧
    okMap c9run2 = [("BTC", ("constant_price_last_5"))] ∧
    (okRows c9run2).length = 7 := by
  refine ⟨by decide, by decide, by decide, by decide, by decide, by decide⟩

/-- C9 (amended): process_trading_rows is a fixpoint on cleaned output
whose re-validation is quiet: if validating the converted cleaned rows
returns exactly those rows with empty needs_fallback and reasons, the
pipeline returns them unchanged with an empty blocked set.  (The prior
run being clean is not sufficient, per the counterexample.) -/
theorem rerun_fixpoint_on_clean_revalidation :
    ∀ cg cmc now c0,
      validate_prices now (c0.map vrowToRow) = .ok (c0, [], []) →
      process_trading_rows cg cmc now (c0.map vrowToRow) = .ok (c0, [], []) := by
  intro cg cmc now c0 h
  unfold process_trading_rows
  simp only [h]
  have hf : fallbackStage cg cmc now [] c0 = .ok c0 := by
    unfold fallbackStage
    rw [if_pos rfl]
  simp only [hf]
  by_cases hc : c0 = []
  · subst hc; rfl
  · simp [hc]

/-- Witness for C9 (amended): a single valid BTC row re-validates to itself
and passes through the pipeline unchanged with nothing blocked. -/
theorem rerun_fixpoint_on_clean_revalidation_witness :
    process_trading_rows none none ("t1") ([vrBTC].map vrowToRow) =
      .ok ([vrBTC], [], []) :=
  rerun_fixpoint_on_clean_revalidation none none ("t1") [vrBTC] rfl

/-- C10: every cleaned row of validate_prices — and hence every cleaned row
of process_trading_rows, the appended fallback rows included, since they
pass through validate_prices too — has a non-null, strictly positive parsed
price within the bounds of its upper-cased symbol. -/
theorem cleaned_rows_invariant :
    (∀ now rows c nf rs,
      validate_prices now rows = .ok (c, nf, rs) →
      ∀ r ∈ c, ∃ p, r.price = some p ∧ dlt ⟨0, 0⟩ p = true ∧
        in_bounds (pyUpper (pySymStr r.symbol)) p = true) ∧
    (∀ cg cmc now raw c b rs,
      process_trading_rows cg cmc now raw = .ok (c, b, rs) →
      ∀ r ∈ c, ∃ p, r.price = some p ∧ dlt ⟨0, 0⟩ p = true ∧
        in_bounds (pyUpper (pySymStr r.symbol)) p = true) := by
  have part1 : ∀ (now : String) (rows : List Row) c nf rs,
      validate_prices now rows = .ok (c, nf, rs) →
      ∀ r ∈ c, ∃ p, r.price = some p ∧ dlt ⟨0, 0⟩ p = true ∧
        in_bounds (pyUpper (pySymStr r.symbol)) p = true := by
    intro now rows c nf rs h r hr
    exact perRow_none_props r.symbol r.price (validate_cleaned_perRow h r hr)
  refine ⟨part1, ?_⟩
  intro cg cmc now raw c b rs h r hr
  unfold process_trading_rows at h
  cases hv : validate_prices now raw with
  | error e => rw [hv] at h; exact Except.noConfusion h
  | ok trip =>
    obtain ⟨c0, nf, rs0⟩ := trip
    simp only [hv] at h
    cases hf : fallbackStage cg cmc now nf c0 with
    | error e => simp only [hf] at h; exact Except.noConfusion h
    | ok cleaned =>
      simp only [hf] at h
      cases h
      rcases fallbackStage_ok hf with hcl | ⟨fbc, nf2, rs2, hvfb, hcl⟩
      · subst hcl
        exact part1 _ _ _ _ _ hv r hr
      · subst hcl
        rcases List.mem_append.mp hr with h1 | h2
        · exact part1 _ _ _ _ _ hv r h1
        · exact part1 _ _ _ _ _ hvfb r h2

/-- Witness for C10: the BTC row cleaned by validate_prices has price
50000, positive and within BTC bounds. -/
theorem cleaned_rows_invariant_witness :
    ∃ p, vrBTC.price = some p ∧ dlt ⟨0, 0⟩ p = true ∧
      in_bounds (pyUpper (pySymStr vrBTC.symbol)) p = true :=
  cleaned_rows_invariant.1 ("t1") ([vrBTC].map vrowToRow) [vrBTC] [] [] rfl
    vrBTC (List.mem_singleton.mpr rfl)

end DataProcessor
